import Mathlib

/-!
Verification development for the vscode-nes next-edit suggestion engine.

JavaScript strings are embedded as `List Char` (one `Char` per UTF-16 code
unit for the inputs considered); JavaScript numbers appearing as offsets,
lengths and line numbers are embedded as `Int` (or `Nat` where the source
value is always a non-negative array index).  Fallible functions return
`Option`.
-/

/-- A JavaScript string, embedded as its list of characters. -/
abbrev Str := List Char

/-- JS `s.slice(a, b)` for non-negative clamped `a`, `b`. -/
def jsSlice (s : Str) (a b : Nat) : Str := (s.take b).drop a

namespace OffsetTransform

/-- `TrackedOffsets` from the offset-transform module: a tracked
`[startOffset, endOffset)` pair in document-offset space. -/
structure TrackedOffsets where
  startOffset : Int
  endOffset : Int
deriving DecidableEq, Repr

/-- `OffsetChange`: one content-change event (`rangeOffset`, `rangeLength`,
inserted `text`). -/
structure OffsetChange where
  rangeOffset : Int
  rangeLength : Int
  text : Str
deriving DecidableEq, Repr

/-- `transformStartOffset` from the source: new start offset of the tracked
range after a change `[changeStart, changeEnd)` with length delta `delta`. -/
def transformStartOffset (offset changeStart changeEnd delta : Int) : Int :=
  if offset < changeStart then offset
  else if offset > changeEnd ∨ (offset = changeEnd ∧ changeStart = changeEnd) then
    offset + delta
  else changeStart

/-- `transformEndOffset` from the source. -/
def transformEndOffset (offset changeStart changeEnd insertedLength delta : Int) : Int :=
  if offset < changeStart then offset
  else if offset ≥ changeEnd then offset + delta
  else changeStart + insertedLength

/-- `applyContentChangeToTrackedOffsets` from the source: clamps the inputs,
computes `delta = insertedLength - (changeEnd - changeStart)`, transforms both
offsets and clamps the new end up to the new start. -/
def applyContentChangeToTrackedOffsets (offsets : TrackedOffsets)
    (change : OffsetChange) : TrackedOffsets :=
  let startOffset := max 0 offsets.startOffset
  let endOffset := max startOffset offsets.endOffset
  let changeStart := max 0 change.rangeOffset
  let changeEnd := max changeStart (change.rangeOffset + change.rangeLength)
  let insertedLength : Int := change.text.length
  let delta := insertedLength - (changeEnd - changeStart)
  let nextStart := transformStartOffset startOffset changeStart changeEnd delta
  let nextEnd := transformEndOffset endOffset changeStart changeEnd insertedLength delta
  { startOffset := nextStart, endOffset := max nextStart nextEnd }

end OffsetTransform

namespace Classifier

/-- The three render decisions of the edit display classifier. -/
inductive EditDisplayDecision where
  | INLINE
  | JUMP
  | SUPPRESS
deriving DecidableEq, Repr

/-- The reason codes of the edit display classifier. -/
inductive EditDisplayReason where
  | farFromCursor
  | beforeCursorMultiline
  | beforeCursorSingleLine
  | singleNewlineBoundary
  | inlineSafe
deriving DecidableEq, Repr

/-- `EditDisplayClassification`: decision plus reason code. -/
structure EditDisplayClassification where
  decision : EditDisplayDecision
  reason : EditDisplayReason
deriving DecidableEq, Repr

/-- `EditDisplayClassifierInput` from the source. -/
structure EditDisplayClassifierInput where
  cursorLine : Int
  editStartLine : Int
  editEndLine : Int
  cursorOffset : Int
  startIndex : Int
  completion : Str
  isOnSingleNewlineBoundary : Bool
deriving DecidableEq, Repr

/-- `EDIT_RANGE_PADDING_ROWS` from the source. -/
def EDIT_RANGE_PADDING_ROWS : Int := 2

open EditDisplayDecision EditDisplayReason in
/-- `classifyEditDisplay` from the source (the pure classifier). -/
def classifyEditDisplay (input : EditDisplayClassifierInput) :
    EditDisplayClassification :=
  let lineDifference := |input.cursorLine - input.editStartLine|
  let isBeforeCursor := input.startIndex < input.cursorOffset
  let hasMultilineCompletion := '\n' ∈ input.completion
  let paddedStart := max 0 (input.editStartLine - EDIT_RANGE_PADDING_ROWS)
  let paddedEnd := input.editEndLine + EDIT_RANGE_PADDING_ROWS
  let isFarFromCursor := input.cursorLine < paddedStart ∨ input.cursorLine > paddedEnd
  if isFarFromCursor then ⟨JUMP, farFromCursor⟩
  else if isBeforeCursor ∧ hasMultilineCompletion then ⟨JUMP, beforeCursorMultiline⟩
  else if isBeforeCursor then ⟨JUMP, beforeCursorSingleLine⟩
  else if hasMultilineCompletion ∧ input.startIndex = input.cursorOffset ∧
      input.isOnSingleNewlineBoundary = true ∧ lineDifference ≤ 1 then
    ⟨SUPPRESS, singleNewlineBoundary⟩
  else ⟨INLINE, inlineSafe⟩

open EditDisplayDecision EditDisplayReason in
/-- The classifier exactly as worded by the specification claim: the padded
band `[editStartLine - 2, editEndLine + 2]` is used without any clamping. -/
def classifyEditDisplaySpec (input : EditDisplayClassifierInput) :
    EditDisplayClassification :=
  if input.cursorLine < input.editStartLine - 2 ∨
      input.cursorLine > input.editEndLine + 2 then ⟨JUMP, farFromCursor⟩
  else if input.startIndex < input.cursorOffset ∧ '\n' ∈ input.completion then
    ⟨JUMP, beforeCursorMultiline⟩
  else if input.startIndex < input.cursorOffset then ⟨JUMP, beforeCursorSingleLine⟩
  else if '\n' ∈ input.completion ∧ input.startIndex = input.cursorOffset ∧
      input.isOnSingleNewlineBoundary = true ∧
      |input.cursorLine - input.editStartLine| ≤ 1 then
    ⟨SUPPRESS, singleNewlineBoundary⟩
  else ⟨INLINE, inlineSafe⟩

end Classifier

section ClaimC2C7

open OffsetTransform

/-- C2: on the well-formed domain (non-negative, ordered tracked offsets and a
non-negative change range) `applyContentChangeToTrackedOffsets` realises
exactly the case split of the specification, with
`changeStart = rangeOffset`, `changeEnd = rangeOffset + rangeLength`,
`L` the inserted length and `delta = L - (changeEnd - changeStart)`. -/
theorem applyContentChange_spec_cases (o : TrackedOffsets) (c : OffsetChange)
    (hs0 : 0 ≤ o.startOffset) (hse : o.startOffset ≤ o.endOffset)
    (hr0 : 0 ≤ c.rangeOffset) (hl0 : 0 ≤ c.rangeLength) :
    (applyContentChangeToTrackedOffsets o c).startOffset =
      (if o.startOffset < c.rangeOffset then o.startOffset
       else if o.startOffset > c.rangeOffset + c.rangeLength ∨
          (o.startOffset = c.rangeOffset + c.rangeLength ∧ c.rangeLength = 0) then
         o.startOffset + ((c.text.length : Int) - c.rangeLength)
       else c.rangeOffset) ∧
    (applyContentChangeToTrackedOffsets o c).endOffset =
      (if o.endOffset < c.rangeOffset then o.endOffset
       else if o.endOffset ≥ c.rangeOffset + c.rangeLength then
         o.endOffset + ((c.text.length : Int) - c.rangeLength)
       else c.rangeOffset + (c.text.length : Int)) := by
  have hmax0 : max 0 o.startOffset = o.startOffset := max_eq_right hs0
  have hmaxse : max o.startOffset o.endOffset = o.endOffset := max_eq_right hse
  have hmaxr : max 0 c.rangeOffset = c.rangeOffset := max_eq_right hr0
  have hmaxe : max c.rangeOffset (c.rangeOffset + c.rangeLength) =
      c.rangeOffset + c.rangeLength := max_eq_right (by omega)
  unfold applyContentChangeToTrackedOffsets transformStartOffset transformEndOffset
  simp only [hmax0, hmaxse, hmaxr, hmaxe]
  constructor
  · split_ifs <;> omega
  · split_ifs <;> omega

/-- C2 witness: the specification example
`apply({10,20}, {rangeOffset:8, rangeLength:5, text:"xy"}) = {8,17}`:
the start collapses to `changeStart = 8` and the end shifts by
`delta = 2 - 5 = -3`. -/
theorem applyContentChange_spec_cases_example :
    (applyContentChangeToTrackedOffsets ⟨10, 20⟩ ⟨8, 5, "xy".data⟩).startOffset = 8 ∧
    (applyContentChangeToTrackedOffsets ⟨10, 20⟩ ⟨8, 5, "xy".data⟩).endOffset = 17 := by
  have h := applyContentChange_spec_cases ⟨10, 20⟩ ⟨8, 5, "xy".data⟩
    (by norm_num) (by norm_num) (by norm_num) (by norm_num)
  constructor
  · rw [h.1]; norm_num
  · rw [h.2]; norm_num

/-- C7: for arbitrary (even negative or inverted) inputs the result of
`applyContentChangeToTrackedOffsets` satisfies
`0 ≤ startOffset ≤ endOffset`, the end being clamped up to the start. -/
theorem applyContentChange_invariant (o : TrackedOffsets) (c : OffsetChange) :
    0 ≤ (applyContentChangeToTrackedOffsets o c).startOffset ∧
    (applyContentChangeToTrackedOffsets o c).startOffset ≤
      (applyContentChangeToTrackedOffsets o c).endOffset ∧
    (applyContentChangeToTrackedOffsets o c).endOffset =
      max (applyContentChangeToTrackedOffsets o c).startOffset
        (transformEndOffset (max (max 0 o.startOffset) o.endOffset)
          (max 0 c.rangeOffset)
          (max (max 0 c.rangeOffset) (c.rangeOffset + c.rangeLength))
          (c.text.length : Int)
          ((c.text.length : Int) -
            (max (max 0 c.rangeOffset) (c.rangeOffset + c.rangeLength) -
              max 0 c.rangeOffset))) := by
  refine ⟨?_, ?_, ?_⟩
  · unfold applyContentChangeToTrackedOffsets transformStartOffset
    dsimp only
    split_ifs <;> omega
  · unfold applyContentChangeToTrackedOffsets
    dsimp only
    exact le_max_left _ _
  · rfl

end ClaimC2C7

section ClaimC4

open Classifier

/-- C4: for every classifier input with `cursorLine ≥ 0`,
`classifyEditDisplay` agrees with the first-match-wins order of the claim,
band `[editStartLine - 2, editEndLine + 2]` unclamped. -/
theorem classifyEditDisplay_matches_spec (input : EditDisplayClassifierInput)
    (hc : 0 ≤ input.cursorLine) :
    classifyEditDisplay input = classifyEditDisplaySpec input := by
  unfold classifyEditDisplay classifyEditDisplaySpec EDIT_RANGE_PADDING_ROWS
  dsimp only
  have hband : (input.cursorLine < max 0 (input.editStartLine - 2) ∨
      input.cursorLine > input.editEndLine + 2) ↔
      (input.cursorLine < input.editStartLine - 2 ∨
        input.cursorLine > input.editEndLine + 2) := by
    constructor
    · rintro (h | h)
      · left; omega
      · right; omega
    · rintro (h | h)
      · left; omega
      · right; omega
  exact if_congr hband rfl rfl

/-- C4 witness: a concrete scenario from the spec —
`cursorLine = 20, editStartLine = 5, editEndLine = 6` is outside the band, so
the decision is `JUMP` with reason `far-from-cursor`. -/
theorem classifyEditDisplay_matches_spec_example :
    classifyEditDisplay ⟨20, 5, 6, 0, 0, "x".data, false⟩ =
      classifyEditDisplaySpec ⟨20, 5, 6, 0, 0, "x".data, false⟩ ∧
    classifyEditDisplay ⟨20, 5, 6, 0, 0, "x".data, false⟩ =
      ⟨.JUMP, .farFromCursor⟩ := by
  refine ⟨classifyEditDisplay_matches_spec ⟨20, 5, 6, 0, 0, "x".data, false⟩ (by norm_num), ?_⟩
  decide

end ClaimC4

namespace Fusion

/-- `FileChunk`: a retrieval snippet `{file_path, start_line, end_line,
content, timestamp?}`. -/
structure FileChunk where
  file_path : Str
  start_line : Int
  end_line : Int
  content : Str
  timestamp : Option Int
deriving DecidableEq, Repr

/-- `rangesTouch` from the source: the two line ranges are adjacent or
overlapping. -/
def rangesTouch (a b : FileChunk) : Bool :=
  decide (b.start_line ≤ a.end_line + 1) && decide (a.start_line ≤ b.end_line + 1)

/-- JS `String.prototype.trim`: strip whitespace from both ends. -/
def jsTrim (s : Str) : Str :=
  ((s.dropWhile Char.isWhitespace).reverse.dropWhile Char.isWhitespace).reverse

/-- `mergeSnippet` from the source: if one range contains the other, the
containing chunk is returned unchanged; otherwise the union of the ranges
with the contents joined in line order (and trimmed) and the larger
timestamp. -/
def mergeSnippet (a b : FileChunk) : FileChunk :=
  if a.start_line ≤ b.start_line ∧ b.end_line ≤ a.end_line then a
  else if b.start_line ≤ a.start_line ∧ a.end_line ≤ b.end_line then b
  else
    { file_path := a.file_path
      start_line := min a.start_line b.start_line
      end_line := max a.end_line b.end_line
      content :=
        if a.start_line ≤ b.start_line then jsTrim (a.content ++ '\n' :: b.content)
        else jsTrim (b.content ++ '\n' :: a.content)
      timestamp := some (max (a.timestamp.getD 0) (b.timestamp.getD 0)) }

/-- The inner scan of `fuseAndDedupRetrievalSnippets`: walk the accepted
chunks; on the first same-file touching chunk replace it by the merge; on an
exact duplicate drop the new chunk; `none` when no accepted chunk matches
(the caller then appends the new chunk). -/
def fuseInto (snippet : FileChunk) : List FileChunk → Option (List FileChunk)
  | [] => none
  | existing :: rest =>
    if existing.file_path = snippet.file_path ∧ rangesTouch existing snippet = true then
      some (mergeSnippet existing snippet :: rest)
    else if existing.file_path = snippet.file_path ∧
        existing.start_line = snippet.start_line ∧
        existing.end_line = snippet.end_line ∧
        existing.content = snippet.content then
      some (existing :: rest)
    else
      (fuseInto snippet rest).map (existing :: ·)

/-- One iteration of the outer `snippetsLoop`. -/
def fuseStep (fused : List FileChunk) (snippet : FileChunk) : List FileChunk :=
  match fuseInto snippet fused with
  | some updated => updated
  | none => fused ++ [snippet]

/-- `fuseAndDedupRetrievalSnippets` from the source. -/
def fuseAndDedupRetrievalSnippets (snippets : List FileChunk) : List FileChunk :=
  snippets.foldl fuseStep []

/-- Agreement of an accepted chunk with a new snippet on the four fields of
the source's exact-duplicate check — `file_path`, `start_line`, `end_line`
and `content`; the timestamp may differ. -/
def sameChunkFields (a b : FileChunk) : Prop :=
  a.file_path = b.file_path ∧ a.start_line = b.start_line ∧
    a.end_line = b.end_line ∧ a.content = b.content

instance (a b : FileChunk) : Decidable (sameChunkFields a b) := by
  unfold sameChunkFields
  infer_instance

/-- Merging a chunk with a snippet that agrees on the four duplicate-check
fields returns the chunk unchanged: the equal ranges make the containment
branch fire, so even a differing timestamp is not adopted. -/
theorem mergeSnippet_of_sameFields (a b : FileChunk) (h : sameChunkFields a b) :
    mergeSnippet a b = a := by
  unfold mergeSnippet
  rw [if_pos ⟨le_of_eq h.2.1, le_of_eq h.2.2.1.symm⟩]

/-- If some accepted chunk agrees with the new snippet on the four
duplicate-check fields, the inner scan always finds a match (it never falls
through to an append), keeps the list length, and leaves every
four-field-identical accepted chunk unchanged at its position. -/
theorem fuseInto_of_sameFields (s : FileChunk) (fused : List FileChunk)
    (h : ∃ e ∈ fused, sameChunkFields e s) :
    ∃ f, fuseInto s fused = some f ∧ f.length = fused.length ∧
      ∀ (i : Nat) (x : FileChunk), fused.get? i = some x → sameChunkFields x s →
        f.get? i = some x := by
  induction fused with
  | nil =>
    obtain ⟨e, he, _⟩ := h
    cases he
  | cons existing rest ih =>
    by_cases h1 : existing.file_path = s.file_path ∧ rangesTouch existing s = true
    · refine ⟨mergeSnippet existing s :: rest, by simp [fuseInto, h1], by simp, ?_⟩
      intro i x hx hs
      cases i with
      | zero =>
        have hex : existing = x := by simpa using hx
        subst hex
        simpa using congrArg some (mergeSnippet_of_sameFields existing s hs)
      | succ i =>
        simpa using hx
    · by_cases h2 : existing.file_path = s.file_path ∧
          existing.start_line = s.start_line ∧ existing.end_line = s.end_line ∧
          existing.content = s.content
      · have ht : rangesTouch existing s = false := by
          rcases Bool.eq_false_or_eq_true (rangesTouch existing s) with htr | hf
          · exact absurd ⟨h2.1, htr⟩ h1
          · exact hf
        refine ⟨existing :: rest, ?_, rfl, fun i x hx _ => hx⟩
        simp [fuseInto, ht, h2]
      · have hrest : ∃ e ∈ rest, sameChunkFields e s := by
          obtain ⟨e, he, hse⟩ := h
          rcases List.mem_cons.mp he with heq | hm
          · subst heq
            exact absurd hse h2
          · exact ⟨e, hm, hse⟩
        obtain ⟨f, hf, hlen, hpt⟩ := ih hrest
        refine ⟨existing :: f, by simp [fuseInto, h1, h2, hf], by simp [hlen], ?_⟩
        intro i x hx hs
        cases i with
        | zero =>
          have hex : existing = x := by simpa using hx
          subst hex
          exact absurd hs h2
        | succ i =>
          have hrec := hpt i x (by simpa using hx) hs
          simpa using hrec

end Fusion

section ClaimC9

open Fusion

/-- C9: `fuseAndDedupRetrievalSnippets [s, s] = [s]` for every snippet, and
in general a later snippet identical to an already-accepted chunk in
`file_path`, `start_line`, `end_line` and `content` (its timestamp may
differ) never adds a new entry — the length is unchanged — and never alters
the existing entry: every four-field-identical accepted chunk is still at its
position, unchanged, after the step. -/
theorem fuse_exact_duplicate_dropped :
    (∀ s : FileChunk, fuseAndDedupRetrievalSnippets [s, s] = [s]) ∧
    (∀ (fused : List FileChunk) (s e : FileChunk), e ∈ fused →
      sameChunkFields e s →
      (fuseStep fused s).length = fused.length ∧
      ∀ (i : Nat) (x : FileChunk), fused.get? i = some x → sameChunkFields x s →
        (fuseStep fused s).get? i = some x) := by
  have hstep : ∀ (fused : List FileChunk) (s e : FileChunk), e ∈ fused →
      sameChunkFields e s →
      (fuseStep fused s).length = fused.length ∧
      ∀ (i : Nat) (x : FileChunk), fused.get? i = some x → sameChunkFields x s →
        (fuseStep fused s).get? i = some x := by
    intro fused s e he hse
    obtain ⟨f, hf, hlen, hpt⟩ := fuseInto_of_sameFields s fused ⟨e, he, hse⟩
    have hsf : fuseStep fused s = f := by
      unfold fuseStep
      rw [hf]
    rw [hsf]
    exact ⟨hlen, hpt⟩
  refine ⟨?_, hstep⟩
  intro s
  have h1 : fuseAndDedupRetrievalSnippets [s, s] = fuseStep [s] s := rfl
  obtain ⟨hlen, hpt⟩ := hstep [s] s s (List.mem_singleton.mpr rfl)
    ⟨rfl, rfl, rfl, rfl⟩
  have hlen1 : (fuseStep [s] s).length = 1 := by simpa using hlen
  have hget : (fuseStep [s] s).get? 0 = some s := hpt 0 s rfl ⟨rfl, rfl, rfl, rfl⟩
  obtain ⟨x, hx⟩ := List.length_eq_one.mp hlen1
  rw [hx] at hget
  have hxs : x = s := by simpa using hget
  rw [h1, hx, hxs]

/-- C9 witness: a concrete snippet and its duplicate fuse to the snippet
alone; a later snippet identical in the four fields but with a *different*
timestamp adds no entry and leaves the accepted chunk in place unchanged
(timestamp included). -/
theorem fuse_exact_duplicate_dropped_witness :
    fuseAndDedupRetrievalSnippets
        [⟨"a.ts".data, 5, 6, "x".data, some 1⟩, ⟨"a.ts".data, 5, 6, "x".data, some 1⟩] =
      [⟨"a.ts".data, 5, 6, "x".data, some 1⟩] ∧
    (fuseStep [⟨"a.ts".data, 5, 6, "x".data, some 1⟩]
        ⟨"a.ts".data, 5, 6, "x".data, some 2⟩).length = 1 ∧
    (fuseStep [⟨"a.ts".data, 5, 6, "x".data, some 1⟩]
        ⟨"a.ts".data, 5, 6, "x".data, some 2⟩).get? 0 =
      some ⟨"a.ts".data, 5, 6, "x".data, some 1⟩ := by
  have h := fuse_exact_duplicate_dropped.2 [⟨"a.ts".data, 5, 6, "x".data, some 1⟩]
    ⟨"a.ts".data, 5, 6, "x".data, some 2⟩ ⟨"a.ts".data, 5, 6, "x".data, some 1⟩
    (List.mem_singleton.mpr rfl) (by decide)
  refine ⟨fuse_exact_duplicate_dropped.1 ⟨"a.ts".data, 5, 6, "x".data, some 1⟩, ?_, ?_⟩
  · simpa using h.1
  · exact h.2 0 ⟨"a.ts".data, 5, 6, "x".data, some 1⟩ rfl (by decide)

end ClaimC9

section ClaimC6

open Fusion

/-- C6 counterexample: the chunks `[1,10]` and `[2,3]` of the same file touch,
yet fusing them returns the containing chunk unchanged — its timestamp is
`some 1`, not the maximum `some 5`, and its content is not the concatenation
of the two contents.  This refutes the claim that every touching pair is
replaced by the range union with concatenated content and maximal
timestamp. -/
theorem fuse_touching_containment_counterexample :
    fuseAndDedupRetrievalSnippets
        [⟨"f".data, 1, 10, "A".data, some 1⟩, ⟨"f".data, 2, 3, "B".data, some 5⟩] =
      [⟨"f".data, 1, 10, "A".data, some 1⟩] ∧
    rangesTouch ⟨"f".data, 1, 10, "A".data, some 1⟩
        ⟨"f".data, 2, 3, "B".data, some 5⟩ = true ∧
    (some 1 : Option Int) ≠ some (max 1 5) ∧
    "A".data ≠ "A".data ++ '\n' :: "B".data := by
  refine ⟨?_, by decide, by decide, by decide⟩
  rfl

/-- C6 amended: two touching same-file snippets fuse into the single entry
`mergeSnippet a b`, which is the range union with contents joined in line
order (trimmed) and the larger timestamp only when neither range contains the
other; when one contains the other the containing snippet is returned
unchanged. -/
theorem fuse_touching_merge_characterised (a b : FileChunk)
    (hp : a.file_path = b.file_path) (ht : rangesTouch a b = true) :
    fuseAndDedupRetrievalSnippets [a, b] = [mergeSnippet a b] ∧
    (a.start_line ≤ b.start_line ∧ b.end_line ≤ a.end_line → mergeSnippet a b = a) ∧
    (¬(a.start_line ≤ b.start_line ∧ b.end_line ≤ a.end_line) →
      b.start_line ≤ a.start_line ∧ a.end_line ≤ b.end_line → mergeSnippet a b = b) ∧
    (¬(a.start_line ≤ b.start_line ∧ b.end_line ≤ a.end_line) →
      ¬(b.start_line ≤ a.start_line ∧ a.end_line ≤ b.end_line) →
      mergeSnippet a b =
        { file_path := a.file_path
          start_line := min a.start_line b.start_line
          end_line := max a.end_line b.end_line
          content :=
            if a.start_line ≤ b.start_line then jsTrim (a.content ++ '\n' :: b.content)
            else jsTrim (b.content ++ '\n' :: a.content)
          timestamp := some (max (a.timestamp.getD 0) (b.timestamp.getD 0)) }) := by
  refine ⟨?_, ?_, ?_, ?_⟩
  · have h1 : fuseAndDedupRetrievalSnippets [a, b] = fuseStep [a] b := rfl
    rw [h1]
    unfold fuseStep fuseInto
    simp [hp, ht]
  · intro hc
    unfold mergeSnippet
    rw [if_pos hc]
  · intro hc1 hc2
    unfold mergeSnippet
    rw [if_neg hc1, if_pos hc2]
  · intro hc1 hc2
    unfold mergeSnippet
    rw [if_neg hc1, if_neg hc2]

/-- C6 witness: the specification example — same-file snippets at lines
`[5,6]` and `[7,8]` fuse into one snippet spanning `[5,8]` with the contents
concatenated in line order and the larger timestamp. -/
theorem fuse_touching_merge_characterised_witness :
    fuseAndDedupRetrievalSnippets
        [⟨"f".data, 5, 6, "L5\nL6".data, some 3⟩, ⟨"f".data, 7, 8, "L7\nL8".data, some 9⟩] =
      [mergeSnippet ⟨"f".data, 5, 6, "L5\nL6".data, some 3⟩
          ⟨"f".data, 7, 8, "L7\nL8".data, some 9⟩] ∧
    mergeSnippet ⟨"f".data, 5, 6, "L5\nL6".data, some 3⟩
        ⟨"f".data, 7, 8, "L7\nL8".data, some 9⟩ =
      ⟨"f".data, 5, 8, "L5\nL6\nL7\nL8".data, some 9⟩ :=
  ⟨(fuse_touching_merge_characterised ⟨"f".data, 5, 6, "L5\nL6".data, some 3⟩
      ⟨"f".data, 7, 8, "L7\nL8".data, some 9⟩ rfl (by decide)).1, by decide⟩

end ClaimC6

namespace Orchestrator

/-- `AutocompleteResult`: one candidate edit from the completion service.
The `confidence` field (a JS number) is carried through unchanged and never
inspected by the code modelled here. -/
structure AutocompleteResult where
  id : Str
  startIndex : Nat
  endIndex : Nat
  completion : Str
  confidence : Int
deriving DecidableEq, Repr

/-- The `renderMode` variable of the classification fan-out
(`"INLINE" | "JUMP" | null` becomes `Option RenderMode`). -/
inductive RenderMode where
  | INLINE
  | JUMP
deriving DecidableEq, Repr

/-- The observable outcome of the fan-out dispatch: nothing rendered, a jump
indicator for one candidate, or an inline (ghost text) render of the first
candidate with the remaining ones queued. -/
inductive RenderOutcome where
  | nothing
  | jump (result : AutocompleteResult)
  | ghostText (first : AutocompleteResult) (queued : List AutocompleteResult)
deriving DecidableEq, Repr

/-- The candidate loop of `provideInlineCompletionItems` (the classification
fan-out), with the document-dependent helpers `normalizeInlineResult`,
`isNoOpSuggestion` and `jumpEditManager.classifyEditDisplay` abstracted as
function parameters.  State: `renderMode`, accumulated `inlineResults`,
`jumpResult`. -/
def classificationFanOutLoop
    (normalize : AutocompleteResult → Option AutocompleteResult)
    (isNoOp : AutocompleteResult → Bool)
    (classify : AutocompleteResult → Classifier.EditDisplayClassification) :
    List AutocompleteResult → Option RenderMode → List AutocompleteResult →
      Option AutocompleteResult →
      Option RenderMode × List AutocompleteResult × Option AutocompleteResult
  | [], renderMode, inlineResults, jumpResult => (renderMode, inlineResults, jumpResult)
  | result :: rest, renderMode, inlineResults, jumpResult =>
    match normalize result with
    | none =>
      classificationFanOutLoop normalize isNoOp classify rest renderMode inlineResults
        jumpResult
    | some normalizedResult =>
      if isNoOp normalizedResult then
        classificationFanOutLoop normalize isNoOp classify rest renderMode inlineResults
          jumpResult
      else
        match (classify normalizedResult).decision with
        | .SUPPRESS =>
          classificationFanOutLoop normalize isNoOp classify rest renderMode inlineResults
            jumpResult
        | .JUMP =>
          if renderMode = none then
            classificationFanOutLoop normalize isNoOp classify rest (some .JUMP)
              inlineResults (some normalizedResult)
          else
            classificationFanOutLoop normalize isNoOp classify rest renderMode
              inlineResults jumpResult
        | .INLINE =>
          let renderMode2 := if renderMode = none then some RenderMode.INLINE else renderMode
          if renderMode2 = some RenderMode.INLINE then
            classificationFanOutLoop normalize isNoOp classify rest renderMode2
              (inlineResults ++ [normalizedResult]) jumpResult
          else
            classificationFanOutLoop normalize isNoOp classify rest renderMode2
              inlineResults jumpResult

/-- The dispatch after the fan-out loop (lines 242-276 of the provider): a
`JUMP` mode with a jump result renders the jump indicator; otherwise an empty
inline list renders nothing; otherwise the first inline result is rendered
and the rest become the suggestion queue. -/
def renderClassifiedResults
    (normalize : AutocompleteResult → Option AutocompleteResult)
    (isNoOp : AutocompleteResult → Bool)
    (classify : AutocompleteResult → Classifier.EditDisplayClassification)
    (results : List AutocompleteResult) : RenderOutcome :=
  match classificationFanOutLoop normalize isNoOp classify results none [] none with
  | (renderMode, inlineResults, jumpResult) =>
    match renderMode, jumpResult with
    | some .JUMP, some jumpRes => .jump jumpRes
    | _, _ =>
      match inlineResults with
      | [] => .nothing
      | firstInlineResult :: restInline => .ghostText firstInlineResult restInline

/-- The candidates surviving normalization, no-op filtering and SUPPRESS
dropping, in list order (each already normalized). -/
def fanOutSurvivors
    (normalize : AutocompleteResult → Option AutocompleteResult)
    (isNoOp : AutocompleteResult → Bool)
    (classify : AutocompleteResult → Classifier.EditDisplayClassification)
    (results : List AutocompleteResult) : List AutocompleteResult :=
  results.filterMap (fun result =>
    match normalize result with
    | none => none
    | some normalizedResult =>
      if isNoOp normalizedResult then none
      else if (classify normalizedResult).decision = .SUPPRESS then none
      else some normalizedResult)

end Orchestrator

namespace Orchestrator

/-- Once the fan-out has settled on `JUMP` mode, the rest of the loop changes
nothing: later candidates (JUMP or INLINE alike) are skipped. -/
theorem fanOutLoop_jump_absorbs
    (n : AutocompleteResult → Option AutocompleteResult)
    (f : AutocompleteResult → Bool)
    (c : AutocompleteResult → Classifier.EditDisplayClassification)
    (rest : List AutocompleteResult) (inl : List AutocompleteResult)
    (j : Option AutocompleteResult) :
    classificationFanOutLoop n f c rest (some .JUMP) inl j = (some .JUMP, inl, j) := by
  induction rest with
  | nil => rfl
  | cons r rest ih =>
    unfold classificationFanOutLoop
    cases hn : n r with
    | none => exact ih
    | some nr =>
      by_cases hno : f nr = true
      · simp only [hno, if_true]
        exact ih
      · simp only [hno, if_false, Bool.false_eq_true]
        cases hd : (c nr).decision <;> simp [ih]

/-- Once the fan-out has settled on `INLINE` mode, the rest of the loop
appends exactly the INLINE-classified survivors of the remaining candidates
and ignores all later JUMP candidates. -/
theorem fanOutLoop_inline_accumulates
    (n : AutocompleteResult → Option AutocompleteResult)
    (f : AutocompleteResult → Bool)
    (c : AutocompleteResult → Classifier.EditDisplayClassification)
    (rest : List AutocompleteResult) (inl : List AutocompleteResult)
    (j : Option AutocompleteResult) :
    classificationFanOutLoop n f c rest (some .INLINE) inl j =
      (some .INLINE,
        inl ++ (fanOutSurvivors n f c rest).filter
          (fun r => decide ((c r).decision = .INLINE)),
        j) := by
  induction rest generalizing inl with
  | nil => simp [classificationFanOutLoop, fanOutSurvivors]
  | cons r rest ih =>
    unfold classificationFanOutLoop
    cases hn : n r with
    | none =>
      rw [ih]
      simp [fanOutSurvivors, List.filterMap_cons, hn]
    | some nr =>
      by_cases hno : f nr = true
      · simp only [hno, if_true]
        rw [ih]
        simp [fanOutSurvivors, List.filterMap_cons, hn, hno]
      · simp only [hno, if_false, Bool.false_eq_true]
        cases hd : (c nr).decision with
        | SUPPRESS =>
          rw [ih]
          simp [fanOutSurvivors, List.filterMap_cons, hn, hno, hd]
        | JUMP =>
          simp only []
          rw [show (if (some RenderMode.INLINE : Option RenderMode) = none then
              classificationFanOutLoop n f c rest (some .JUMP) inl (some nr)
            else classificationFanOutLoop n f c rest (some .INLINE) inl j) =
              classificationFanOutLoop n f c rest (some .INLINE) inl j from by simp]
          rw [ih]
          simp [fanOutSurvivors, List.filterMap_cons, hn, hno, hd]
        | INLINE =>
          simp only [ite_self, if_true]
          rw [ih]
          simp [fanOutSurvivors, List.filterMap_cons, hn, hno, hd]

/-- From the initial state, the fan-out loop's final state is determined by
the first surviving candidate. -/
theorem fanOutLoop_initial
    (n : AutocompleteResult → Option AutocompleteResult)
    (f : AutocompleteResult → Bool)
    (c : AutocompleteResult → Classifier.EditDisplayClassification)
    (results : List AutocompleteResult) :
    classificationFanOutLoop n f c results none [] none =
      (match fanOutSurvivors n f c results with
       | [] => (none, [], none)
       | s :: rest =>
         if (c s).decision = .JUMP then (some .JUMP, [], some s)
         else
           (some .INLINE,
             s :: rest.filter (fun r => decide ((c r).decision = .INLINE)),
             none)) := by
  induction results with
  | nil => rfl
  | cons r rest ih =>
    unfold classificationFanOutLoop
    cases hn : n r with
    | none =>
      rw [ih]
      have hsurv : fanOutSurvivors n f c (r :: rest) = fanOutSurvivors n f c rest := by
        simp [fanOutSurvivors, List.filterMap_cons, hn]
      rw [hsurv]
    | some nr =>
      by_cases hno : f nr = true
      · simp only [hno, if_true]
        rw [ih]
        have hsurv : fanOutSurvivors n f c (r :: rest) = fanOutSurvivors n f c rest := by
          simp [fanOutSurvivors, List.filterMap_cons, hn, hno]
        rw [hsurv]
      · simp only [hno, if_false, Bool.false_eq_true]
        cases hd : (c nr).decision with
        | SUPPRESS =>
          rw [ih]
          have hsurv : fanOutSurvivors n f c (r :: rest) = fanOutSurvivors n f c rest := by
            simp [fanOutSurvivors, List.filterMap_cons, hn, hno, hd]
          rw [hsurv]
        | JUMP =>
          have hsurv : fanOutSurvivors n f c (r :: rest) =
              nr :: fanOutSurvivors n f c rest := by
            simp [fanOutSurvivors, List.filterMap_cons, hn, hno, hd]
          rw [hsurv]
          simp [fanOutLoop_jump_absorbs, hd]
        | INLINE =>
          have hsurv : fanOutSurvivors n f c (r :: rest) =
              nr :: fanOutSurvivors n f c rest := by
            simp [fanOutSurvivors, List.filterMap_cons, hn, hno, hd]
          rw [hsurv]
          simp [fanOutLoop_inline_accumulates, hd]

end Orchestrator

section ClaimC1

open Orchestrator

/-- C1 amended: the render mode of the classification fan-out is decided by
the *first* candidate that survives normalization, no-op filtering and
SUPPRESS dropping.  If that first survivor is classified JUMP it is rendered
as the jump indicator and every other candidate is dropped; if it is
classified INLINE it is rendered inline with the later INLINE-classified
survivors queued, and every JUMP-classified candidate is dropped; with no
survivor nothing is rendered.  In particular a JUMP candidate wins only when
no INLINE-classified survivor precedes it. -/
theorem renderClassifiedResults_first_survivor_decides
    (n : AutocompleteResult → Option AutocompleteResult)
    (f : AutocompleteResult → Bool)
    (c : AutocompleteResult → Classifier.EditDisplayClassification)
    (results : List AutocompleteResult) :
    renderClassifiedResults n f c results =
      (match fanOutSurvivors n f c results with
       | [] => RenderOutcome.nothing
       | s :: rest =>
         if (c s).decision = .JUMP then RenderOutcome.jump s
         else
           RenderOutcome.ghostText s
             (rest.filter (fun r => decide ((c r).decision = .INLINE)))) := by
  unfold renderClassifiedResults
  rw [fanOutLoop_initial]
  cases hs : fanOutSurvivors n f c results with
  | nil => rfl
  | cons s rest =>
    by_cases hd : (c s).decision = .JUMP
    · simp [hd]
    · simp [hd]

/-- C1 counterexample: with the identity normalizer, no no-ops, and the real
classifier over a concrete geometry (cursor at offset 5 on line 0), the
first candidate (at the cursor) is classified INLINE and the second (before
the cursor) is classified JUMP; the fan-out renders the INLINE candidate and
ignores the JUMP candidate entirely, refuting the claim that the first
JUMP-classified candidate wins regardless of preceding INLINE candidates. -/
theorem fanOut_inline_precedes_jump_counterexample :
    (Classifier.classifyEditDisplay ⟨0, 0, 0, 5, 5, "foo".data, false⟩).decision =
      .INLINE ∧
    (Classifier.classifyEditDisplay ⟨0, 0, 0, 5, 3, "bar".data, false⟩).decision =
      .JUMP ∧
    renderClassifiedResults (fun r => some r) (fun _ => false)
        (fun r => Classifier.classifyEditDisplay
          ⟨0, 0, 0, 5, (r.startIndex : Int), r.completion, false⟩)
        [⟨"c1".data, 5, 5, "foo".data, 0⟩, ⟨"c2".data, 3, 3, "bar".data, 0⟩] =
      RenderOutcome.ghostText ⟨"c1".data, 5, 5, "foo".data, 0⟩ [] := by
  refine ⟨by decide, by decide, ?_⟩
  decide

end ClaimC1

namespace Orchestrator

/-- `extractInsertedTextAtCursor` from the source: isolate the text inserted
at `cursorOffset` between `originalText` and `updatedText`.  The source
early-returns `null` when the original's cursor prefix is not a prefix of the
updated text or the original's cursor suffix is not a suffix of it, and when
the isolated insertion is empty. -/
def extractInsertedTextAtCursor (originalText updatedText : Str)
    (cursorOffset : Nat) : Option Str :=
  let pre := originalText.take cursorOffset
  let suf := originalText.drop cursorOffset
  if pre.isPrefixOf updatedText && suf.isSuffixOf updatedText then
    let insertedText := jsSlice updatedText pre.length (updatedText.length - suf.length)
    if insertedText.length > 0 then some insertedText else none
  else none

/-- `tryBuildGhostTextExtension` from the source.  The document-dependent
inputs are passed explicitly: `snapshotPositionOffset` is
`document.offsetAt(snapshot.position)` (against the *current* document),
`currentText` is `document.getText()`, and the active editor is abstracted by
`activeEditorMatchesSnapshotUri` together with `activeCursorOffset`
(`offsetAt(activeEditor.selection.active)`). -/
def tryBuildGhostTextExtension (snapshotContent : Str)
    (snapshotPositionOffset : Nat) (currentText : Str)
    (activeEditorMatchesSnapshotUri : Bool) (activeCursorOffset : Nat)
    (results : List AutocompleteResult) : Option (List AutocompleteResult) :=
  match results with
  | [] => none
  | firstResult :: rest =>
    let snapshotCursorOffset := min snapshotPositionOffset snapshotContent.length
    match extractInsertedTextAtCursor snapshotContent currentText
        snapshotCursorOffset with
    | none => none
    | some userInsertedText =>
      let suggestedText := snapshotContent.take firstResult.startIndex ++
        firstResult.completion ++ snapshotContent.drop firstResult.endIndex
      match extractInsertedTextAtCursor snapshotContent suggestedText
          snapshotCursorOffset with
      | none => none
      | some suggestedInsertedText =>
        if userInsertedText.isPrefixOf suggestedInsertedText then
          let extendedCompletion :=
            suggestedInsertedText.drop userInsertedText.length
          if extendedCompletion.length = 0 then none
          else
            let currentCursorOffset :=
              if activeEditorMatchesSnapshotUri then activeCursorOffset
              else snapshotCursorOffset + userInsertedText.length
            some ({ firstResult with
                startIndex := currentCursorOffset,
                endIndex := currentCursorOffset,
                completion := extendedCompletion } ::
              rest.map (fun result =>
                { result with
                  startIndex := result.startIndex + userInsertedText.length,
                  endIndex := result.endIndex + userInsertedText.length }))
        else none

end Orchestrator

section ClaimC3

open Orchestrator

/-- C3: a stale response is rendered only as an extension.  With
`userInserted` the text the user inserted at the snapshot cursor and
`suggestedInserted` the text the first candidate's replacement would have
inserted there: when `suggestedInserted` starts with `userInserted` and the
remainder is non-empty, the first candidate becomes an insertion of the
remainder anchored at the current cursor and every remaining candidate is
shifted by `userInserted.length`; when `userInserted` cannot be isolated, or
is not such a prefix, or the remainder is empty, the whole response is
discarded (`none`, so nothing is rendered). -/
theorem tryBuildGhostTextExtension_spec (snapshotContent currentText : Str)
    (snapshotPositionOffset activeCursorOffset : Nat)
    (activeMatches : Bool) (firstResult : AutocompleteResult)
    (rest : List AutocompleteResult) :
    (extractInsertedTextAtCursor snapshotContent currentText
        (min snapshotPositionOffset snapshotContent.length) = none →
      tryBuildGhostTextExtension snapshotContent snapshotPositionOffset currentText
        activeMatches activeCursorOffset (firstResult :: rest) = none) ∧
    (∀ u, extractInsertedTextAtCursor snapshotContent currentText
        (min snapshotPositionOffset snapshotContent.length) = some u →
      (extractInsertedTextAtCursor snapshotContent
          (snapshotContent.take firstResult.startIndex ++ firstResult.completion ++
            snapshotContent.drop firstResult.endIndex)
          (min snapshotPositionOffset snapshotContent.length) = none →
        tryBuildGhostTextExtension snapshotContent snapshotPositionOffset currentText
          activeMatches activeCursorOffset (firstResult :: rest) = none) ∧
      (∀ v, extractInsertedTextAtCursor snapshotContent
          (snapshotContent.take firstResult.startIndex ++ firstResult.completion ++
            snapshotContent.drop firstResult.endIndex)
          (min snapshotPositionOffset snapshotContent.length) = some v →
        (u.isPrefixOf v = false →
          tryBuildGhostTextExtension snapshotContent snapshotPositionOffset
            currentText activeMatches activeCursorOffset (firstResult :: rest) =
            none) ∧
        (u.isPrefixOf v = true → v.drop u.length = [] →
          tryBuildGhostTextExtension snapshotContent snapshotPositionOffset
            currentText activeMatches activeCursorOffset (firstResult :: rest) =
            none) ∧
        (u.isPrefixOf v = true → v.drop u.length ≠ [] →
          tryBuildGhostTextExtension snapshotContent snapshotPositionOffset
            currentText activeMatches activeCursorOffset (firstResult :: rest) =
            some ({ firstResult with
                startIndex := if activeMatches then activeCursorOffset
                  else min snapshotPositionOffset snapshotContent.length + u.length,
                endIndex := if activeMatches then activeCursorOffset
                  else min snapshotPositionOffset snapshotContent.length + u.length,
                completion := v.drop u.length } ::
              rest.map (fun result =>
                { result with
                  startIndex := result.startIndex + u.length,
                  endIndex := result.endIndex + u.length }))))) := by
  refine ⟨?_, ?_⟩
  · intro h
    simp [tryBuildGhostTextExtension, h]
  · intro u hu
    refine ⟨?_, ?_⟩
    · intro h
      have h2 : extractInsertedTextAtCursor snapshotContent
          (snapshotContent.take firstResult.startIndex ++ (firstResult.completion ++
            snapshotContent.drop firstResult.endIndex))
          (min snapshotPositionOffset snapshotContent.length) = none := by
        rw [← List.append_assoc]
        exact h
      simp [tryBuildGhostTextExtension, hu, h2]
    · intro v hv
      have hv2 : extractInsertedTextAtCursor snapshotContent
          (snapshotContent.take firstResult.startIndex ++ (firstResult.completion ++
            snapshotContent.drop firstResult.endIndex))
          (min snapshotPositionOffset snapshotContent.length) = some v := by
        rw [← List.append_assoc]
        exact hv
      refine ⟨?_, ?_, ?_⟩
      · intro h
        have hp : ¬(u <+: v) := by
          intro hc
          rw [List.isPrefixOf_iff_prefix.mpr hc] at h
          cases h
        simp [tryBuildGhostTextExtension, hu, hv2, hp]
      · intro h hd
        have hp : u <+: v := List.isPrefixOf_iff_prefix.mp h
        have hl : v.length - u.length = 0 := by
          have hlen := congrArg List.length hd
          simpa using hlen
        simp [tryBuildGhostTextExtension, hu, hv2, hp, hl]
      · intro h hd
        have hp : u <+: v := List.isPrefixOf_iff_prefix.mp h
        have hl : ¬(v.length - u.length = 0) := by
          intro hc
          apply hd
          have hdl : (v.drop u.length).length = 0 := by simpa using hc
          exact List.length_eq_zero.mp hdl
        simp [tryBuildGhostTextExtension, hu, hv2, hp, hl]

/-- C3 witness: snapshot `"abcd"` with cursor at offset 2; the user typed
`"X"` (current text `"abXcd"`); the first candidate would insert `"XYZ"` at
the cursor.  The user text is a prefix, so the first candidate becomes the
insertion of `"YZ"` at the current cursor offset 3 and the queued candidate
is shifted by 1. -/
theorem tryBuildGhostTextExtension_spec_witness :
    tryBuildGhostTextExtension "abcd".data 2 "abXcd".data true 3
        [⟨"c1".data, 2, 2, "XYZ".data, 0⟩, ⟨"c2".data, 7, 8, "Q".data, 0⟩] =
      some [⟨"c1".data, 3, 3, "YZ".data, 0⟩, ⟨"c2".data, 8, 9, "Q".data, 0⟩] := by
  have h := ((tryBuildGhostTextExtension_spec "abcd".data "abXcd".data 2 3 true
      ⟨"c1".data, 2, 2, "XYZ".data, 0⟩ [⟨"c2".data, 7, 8, "Q".data, 0⟩]).2
      "X".data (by decide)).2 "XYZ".data (by decide)
  have h2 := h.2.2 (by decide) (by decide)
  exact h2.trans (by decide)

end ClaimC3

namespace Diff

/-- Input record of `formatRecentChangeDiff` (`contextLines` and
`maxDiffChars` already defaulted by the caller; `rangeStartLine` is
`range.start.line` of the replaced range). -/
structure FormatRecentChangeDiffInput where
  filepath : Str
  previousContent : Str
  rangeStartLine : Nat
  rangeOffset : Int
  rangeLength : Int
  newText : Str
  contextLines : Nat
  maxDiffChars : Nat
deriving DecidableEq, Repr

/-- `toLines` from the source: empty text has no lines, otherwise split on
newline. -/
def toLines (text : Str) : List Str :=
  if text = [] then [] else text.splitOn '\n'

/-- `getLastLines` from the source: the last `count` lines, a trailing
newline not counting as an extra line. -/
def getLastLines (text : Str) (count : Nat) : List Str :=
  if text = [] ∨ count = 0 then []
  else
    let lines := text.splitOn '\n'
    let lines := if text.getLast? = some '\n' then lines.dropLast else lines
    lines.drop (lines.length - count)

/-- `getFirstLines` from the source. -/
def getFirstLines (text : Str) (count : Nat) : List Str :=
  if text = [] ∨ count = 0 then []
  else (text.splitOn '\n').take count

/-- JS `lines.join("\n")`. -/
def joinLines : List Str → Str
  | [] => []
  | [line] => line
  | line :: rest => line ++ '\n' :: joinLines rest

/-- Decimal rendering of a number interpolated into the hunk header. -/
def natToStr (n : Nat) : Str := (Nat.repr n).data

/-- JS `s.lastIndexOf(c)`: last index of `c`, `-1` when absent. -/
def jsLastIndexOf (s : Str) (c : Char) : Int :=
  if c ∈ s then (s.length : Int) - 1 - s.reverse.indexOf c else -1

/-- The `...[truncated]` marker appended by `truncateDiff`. -/
def truncationMarker : Str := "...[truncated]".data

/-- The separator line of the patch header (a literal line of 67 equals
signs in the source). -/
def headerSeparator : Str := List.replicate 67 '='


/-- The `truncated` slice of `truncateDiff` before the line-boundary cut:
the joined body sliced to the remaining budget
`maxDiffChars - (headerText.length + 1 + marker.length + 1)`. -/
def truncatedBodySlice (header : List Str) (bodyLines : List Str)
    (maxDiffChars : Nat) : Str :=
  (joinLines bodyLines).take
    (maxDiffChars - ((joinLines header).length + 1 + truncationMarker.length + 1))

/-- The `truncated` value of `truncateDiff` after the line-boundary cut: the
slice is cut back to its last newline when `lastIndexOf("\n") > 0`, and kept
as is (possibly mid-line) otherwise. -/
def truncatedBodyCut (header : List Str) (bodyLines : List Str)
    (maxDiffChars : Nat) : Str :=
  if jsLastIndexOf (truncatedBodySlice header bodyLines maxDiffChars) '\n' > 0 then
    (truncatedBodySlice header bodyLines maxDiffChars).take
      (jsLastIndexOf (truncatedBodySlice header bodyLines maxDiffChars) '\n').toNat
  else truncatedBodySlice header bodyLines maxDiffChars

/-- `truncateDiff` from the source: if even header + newline + marker does
not fit the budget, return the header alone; otherwise slice the body to the
remaining budget, cut it back to its last newline when it contains one past
the first character, and append the marker (header alone plus marker when the
cut body is empty). -/
def truncateDiff (header : List Str) (bodyLines : List Str)
    (maxDiffChars : Nat) : Str :=
  if maxDiffChars ≤ (joinLines header).length + 1 + truncationMarker.length then
    joinLines header
  else if truncatedBodyCut header bodyLines maxDiffChars = [] then
    joinLines header ++ '\n' :: truncationMarker
  else
    joinLines header ++ '\n' :: truncatedBodyCut header bodyLines maxDiffChars ++
      '\n' :: truncationMarker

/-- The deleted region `previousContent[rangeOffset, rangeOffset+rangeLength)`
(meaningful on the valid-range path). -/
def diffDeletedText (input : FormatRecentChangeDiffInput) : Str :=
  jsSlice input.previousContent input.rangeOffset.toNat
    (input.rangeOffset + input.rangeLength).toNat

/-- Context lines preceding the change. -/
def diffBeforeContext (input : FormatRecentChangeDiffInput) : List Str :=
  getLastLines (input.previousContent.take input.rangeOffset.toNat)
    input.contextLines

/-- Context lines following the change. -/
def diffAfterContext (input : FormatRecentChangeDiffInput) : List Str :=
  getFirstLines
    (input.previousContent.drop (input.rangeOffset + input.rangeLength).toNat)
    input.contextLines

/-- The prefixed body lines of the patch: space-prefixed leading context,
`-`-prefixed deleted lines, `+`-prefixed added lines, space-prefixed trailing
context. -/
def diffBodyLines (input : FormatRecentChangeDiffInput) : List Str :=
  (diffBeforeContext input).map (' ' :: ·) ++
    (toLines (diffDeletedText input)).map ('-' :: ·) ++
    (toLines input.newText).map ('+' :: ·) ++
    (diffAfterContext input).map (' ' :: ·)

/-- The three header lines: `Index: <path>`, the separator, and the hunk
header.  `oldStartLine = max(1, rangeStartLine + 1 - beforeContext.length)`
(natural subtraction agrees with the JS value under the outer `max 1`),
`newStartLine = oldStartLine`. -/
def diffHeader (input : FormatRecentChangeDiffInput) : List Str :=
  ["Index: ".data ++ input.filepath,
    headerSeparator,
    "@@ -".data ++
      natToStr (max 1 (input.rangeStartLine + 1 - (diffBeforeContext input).length)) ++
      ",".data ++
      natToStr ((diffBeforeContext input).length +
        (toLines (diffDeletedText input)).length + (diffAfterContext input).length) ++
      " +".data ++
      natToStr (max 1 (input.rangeStartLine + 1 - (diffBeforeContext input).length)) ++
      ",".data ++
      natToStr ((diffBeforeContext input).length +
        (toLines input.newText).length + (diffAfterContext input).length) ++
      " @@".data]

/-- `formatRecentChangeDiff` from the source: `none` on an invalid range or a
no-op change, the full patch when it fits `maxDiffChars`, the truncated patch
otherwise. -/
def formatRecentChangeDiff (input : FormatRecentChangeDiffInput) : Option Str :=
  if input.rangeOffset < 0 ∨ input.rangeOffset + input.rangeLength < input.rangeOffset ∨
      input.rangeOffset + input.rangeLength > (input.previousContent.length : Int) then
    none
  else if diffDeletedText input = input.newText then none
  else if (joinLines (diffHeader input ++ diffBodyLines input)).length ≤
      input.maxDiffChars then
    some (joinLines (diffHeader input ++ diffBodyLines input))
  else some (truncateDiff (diffHeader input) (diffBodyLines input) input.maxDiffChars)

end Diff

namespace Diff

/-- `join("\n")` distributes over a concatenation of non-empty line lists. -/
theorem joinLines_append (l1 l2 : List Str) (h1 : l1 ≠ []) (h2 : l2 ≠ []) :
    joinLines (l1 ++ l2) = joinLines l1 ++ '\n' :: joinLines l2 := by
  induction l1 with
  | nil => cases h1 rfl
  | cons a l1 ih =>
    cases l1 with
    | nil =>
      cases l2 with
      | nil => cases h2 rfl
      | cons b l2 => simp [joinLines]
    | cons c l1 =>
      have e1 : joinLines ((a :: c :: l1) ++ l2) =
          a ++ '\n' :: joinLines ((c :: l1) ++ l2) := rfl
      have e2 : joinLines (a :: c :: l1) = a ++ '\n' :: joinLines (c :: l1) := rfl
      rw [e1, e2, ih (by simp)]
      simp

/-- The first line is a prefix of the join. -/
theorem joinLines_head_prefix (a : Str) (rest : List Str) :
    a <+: joinLines (a :: rest) := by
  cases rest with
  | nil => exact List.prefix_refl a
  | cons b r => exact ⟨'\n' :: joinLines (b :: r), rfl⟩

/-- The join of a non-empty prefix of the line list is a prefix of the
join. -/
theorem joinLines_prefix (l1 l2 : List Str) (h1 : l1 ≠ []) :
    joinLines l1 <+: joinLines (l1 ++ l2) := by
  cases l2 with
  | nil => simp
  | cons b r =>
    rw [joinLines_append l1 (b :: r) h1 (by simp)]
    exact ⟨'\n' :: joinLines (b :: r), rfl⟩

/-- First-occurrence split of `List.indexOf`: a member splits the list at its
first occurrence. -/
theorem indexOf_first_split (r : Str) (c : Char) (h : c ∈ r) :
    ∃ A B, r = A ++ c :: B ∧ c ∉ A ∧ r.indexOf c = A.length := by
  induction r with
  | nil => cases h
  | cons a t ih =>
    by_cases hac : a = c
    · subst hac
      exact ⟨[], t, rfl, by simp, by simp⟩
    · have hm : c ∈ t := by
        rcases List.mem_cons.mp h with h0 | h0
        · exact absurd h0.symm hac
        · exact h0
      obtain ⟨A, B, hr, hA, hidx⟩ := ih hm
      refine ⟨a :: A, B, by simp [hr], ?_, ?_⟩
      · simp only [List.mem_cons, not_or]
        exact ⟨fun hca => hac hca.symm, hA⟩
      · simp [List.indexOf_cons_ne _ hac, hidx]

/-- Last-occurrence split of `jsLastIndexOf`: a member splits the list at its
last occurrence, and `jsLastIndexOf` is the length of the part before it. -/
theorem jsLastIndexOf_split (s : Str) (c : Char) (h : c ∈ s) :
    ∃ pre post, s = pre ++ c :: post ∧ c ∉ post ∧
      jsLastIndexOf s c = (pre.length : Int) := by
  obtain ⟨A, B, hrev, hA, hidx⟩ :=
    indexOf_first_split s.reverse c (List.mem_reverse.mpr h)
  refine ⟨B.reverse, A.reverse, ?_, by simpa using hA, ?_⟩
  · have hrr : s.reverse.reverse = (A ++ c :: B).reverse := by rw [hrev]
    simpa using hrr
  · have hlen : s.length = A.length + 1 + B.length := by
      have hc := congrArg List.length hrev
      simp at hc
      omega
    unfold jsLastIndexOf
    rw [if_pos h, hidx]
    simp only [List.length_reverse]
    omega

/-- The cut body slice never exceeds the remaining budget. -/
theorem truncatedBodyCut_length_le (header bodyLines : List Str)
    (maxDiffChars : Nat) :
    (truncatedBodyCut header bodyLines maxDiffChars).length ≤
      maxDiffChars -
        ((joinLines header).length + 1 + truncationMarker.length + 1) := by
  unfold truncatedBodyCut truncatedBodySlice
  split_ifs with h
  · simp only [List.length_take]
    omega
  · exact List.length_take_le _ _

end Diff

section ClaimC8

open Diff

/-- C8: `formatRecentChangeDiff` returns `none` exactly when the change range
is invalid (`rangeOffset < 0`, `rangeOffset + rangeLength < rangeOffset`, or
`rangeOffset + rangeLength` beyond the previous content's length) or the
deleted text equals the inserted text; the embedding is total (the source
never throws), and in every other case the result is a patch string. -/
theorem formatRecentChangeDiff_none_iff (input : FormatRecentChangeDiffInput) :
    formatRecentChangeDiff input = none ↔
      (input.rangeOffset < 0 ∨
        input.rangeOffset + input.rangeLength < input.rangeOffset ∨
        input.rangeOffset + input.rangeLength >
          (input.previousContent.length : Int) ∨
        diffDeletedText input = input.newText) := by
  constructor
  · intro h
    by_contra hc
    push_neg at hc
    obtain ⟨hA, hB, hC, hD⟩ := hc
    unfold formatRecentChangeDiff at h
    rw [if_neg (by omega), if_neg hD] at h
    split_ifs at h
  · intro h
    unfold formatRecentChangeDiff
    by_cases hABC : input.rangeOffset < 0 ∨
        input.rangeOffset + input.rangeLength < input.rangeOffset ∨
        input.rangeOffset + input.rangeLength > (input.previousContent.length : Int)
    · rw [if_pos hABC]
    · have hD : diffDeletedText input = input.newText := by tauto
      rw [if_neg hABC, if_pos hD]

end ClaimC8

section ClaimC5

open Diff

set_option maxRecDepth 10000 in
/-- C5 counterexample.  First input: with `maxDiffChars = 5` the patch cannot
fit and even the header plus marker cannot fit, so the header alone — 92
characters, far beyond the budget — is returned, refuting the bound
`length ≤ maxDiffChars`.  Second input: a 30-character single-line deletion
with `maxDiffChars = 120` is truncated to `"-aaaaaaaaaaa"`, a strict prefix
of the only deletion line `"-" ++ 30 × a` of the body — the cut is mid-line,
not at a line boundary. -/
theorem diff_truncation_bound_counterexample :
    (formatRecentChangeDiff ⟨"f".data, "a".data, 0, 0, 1, "b".data, 2, 5⟩).map
        List.length = some 92 ∧
    ¬(92 ≤ 5) ∧
    formatRecentChangeDiff
        ⟨"f".data, List.replicate 30 'a', 0, 0, 30, "b".data, 2, 120⟩ =
      some (joinLines
          (diffHeader ⟨"f".data, List.replicate 30 'a', 0, 0, 30, "b".data, 2, 120⟩) ++
        '\n' :: ('-' :: List.replicate 11 'a') ++ '\n' :: truncationMarker) ∧
    diffBodyLines ⟨"f".data, List.replicate 30 'a', 0, 0, 30, "b".data, 2, 120⟩ =
      ['-' :: List.replicate 30 'a', "+b".data] ∧
    ('-' :: List.replicate 11 'a') ≠ '-' :: List.replicate 30 'a' ∧
    List.isPrefixOf ('-' :: List.replicate 11 'a') ('-' :: List.replicate 30 'a') =
      true := by
  refine ⟨by decide, by decide, by decide, by decide, by decide, by decide⟩

/-- C5 amended: every non-null output of `formatRecentChangeDiff` begins with
the `Index: <path>` header line; its length is bounded by
`max maxDiffChars headerText.length`, and by `maxDiffChars` itself whenever
`maxDiffChars` exceeds the length of header + newline + marker; a patch that
fits the budget is returned whole; when it does not fit and even the header
plus marker does not fit, the header alone is returned (and may exceed
`maxDiffChars`); when it does not fit but the header plus marker does, the
output ends in the `...[truncated]` marker and is the header, the cut body
and the marker, where the cut body is the in-budget slice cut back exactly to
its last newline (the slice splits as `cut ++ newline :: tail` with no
newline in `tail`) whenever the slice contains a newline past its first
character, and is the whole slice — a mid-line cut — otherwise (header plus
marker alone when the cut body is empty). -/
theorem formatRecentChangeDiff_output_shape (input : FormatRecentChangeDiffInput)
    (s : Str) (h : formatRecentChangeDiff input = some s) :
    ("Index: ".data ++ input.filepath) <+: s ∧
    s.length ≤ max input.maxDiffChars (joinLines (diffHeader input)).length ∧
    ((joinLines (diffHeader input)).length + 1 + truncationMarker.length <
        input.maxDiffChars → s.length ≤ input.maxDiffChars) ∧
    ((joinLines (diffHeader input ++ diffBodyLines input)).length ≤
        input.maxDiffChars →
      s = joinLines (diffHeader input ++ diffBodyLines input)) ∧
    (input.maxDiffChars <
        (joinLines (diffHeader input ++ diffBodyLines input)).length →
      input.maxDiffChars ≤
        (joinLines (diffHeader input)).length + 1 + truncationMarker.length →
      s = joinLines (diffHeader input)) ∧
    (input.maxDiffChars <
        (joinLines (diffHeader input ++ diffBodyLines input)).length →
      (joinLines (diffHeader input)).length + 1 + truncationMarker.length <
        input.maxDiffChars →
      truncationMarker <:+ s) ∧
    (input.maxDiffChars <
        (joinLines (diffHeader input ++ diffBodyLines input)).length →
      (joinLines (diffHeader input)).length + 1 + truncationMarker.length <
        input.maxDiffChars →
      ((truncatedBodyCut (diffHeader input) (diffBodyLines input)
            input.maxDiffChars = [] ∧
          s = joinLines (diffHeader input) ++ '\n' :: truncationMarker) ∨
        (∃ tail,
          truncatedBodySlice (diffHeader input) (diffBodyLines input)
              input.maxDiffChars =
            truncatedBodyCut (diffHeader input) (diffBodyLines input)
              input.maxDiffChars ++ '\n' :: tail ∧
          '\n' ∉ tail ∧
          truncatedBodyCut (diffHeader input) (diffBodyLines input)
            input.maxDiffChars ≠ [] ∧
          s = joinLines (diffHeader input) ++ '\n' ::
            truncatedBodyCut (diffHeader input) (diffBodyLines input)
              input.maxDiffChars ++ '\n' :: truncationMarker) ∨
        ('\n' ∉ (truncatedBodySlice (diffHeader input) (diffBodyLines input)
              input.maxDiffChars).drop 1 ∧
          truncatedBodyCut (diffHeader input) (diffBodyLines input)
              input.maxDiffChars =
            truncatedBodySlice (diffHeader input) (diffBodyLines input)
              input.maxDiffChars ∧
          s = joinLines (diffHeader input) ++ '\n' ::
            truncatedBodySlice (diffHeader input) (diffBodyLines input)
              input.maxDiffChars ++ '\n' :: truncationMarker))) := by
  have hhead : ("Index: ".data ++ input.filepath) <+: joinLines (diffHeader input) := by
    simp only [diffHeader]
    exact joinLines_head_prefix _ _
  have hheadfull : joinLines (diffHeader input) <+:
      joinLines (diffHeader input ++ diffBodyLines input) :=
    joinLines_prefix _ _ (by simp only [diffHeader]; simp)
  unfold formatRecentChangeDiff at h
  split_ifs at h with h1 h2 h3
  · -- the full patch fits the budget
    have hs : s = joinLines (diffHeader input ++ diffBodyLines input) :=
      (Option.some.inj h).symm
    subst hs
    refine ⟨hhead.trans hheadfull, le_trans h3 (le_max_left _ _), fun _ => h3,
      fun _ => rfl, ?_, ?_, ?_⟩
    · intro habs _
      exfalso
      omega
    · intro habs _
      exfalso
      omega
    · intro habs _
      exfalso
      omega
  · -- the full patch exceeds the budget
    have hs : s = truncateDiff (diffHeader input) (diffBodyLines input)
        input.maxDiffChars := (Option.some.inj h).symm
    subst hs
    have hcut := truncatedBodyCut_length_le (diffHeader input) (diffBodyLines input)
      input.maxDiffChars
    unfold truncateDiff
    split_ifs with t1 t2
    · -- even header + marker does not fit: the header alone
      refine ⟨hhead, le_max_right _ _, ?_, ?_, fun _ _ => rfl, ?_, ?_⟩
      · intro hlt
        exfalso
        omega
      · intro hfit
        exfalso
        omega
      · intro _ hlt
        exfalso
        omega
      · intro _ hlt
        exfalso
        omega
    · -- empty cut body: header + marker
      refine ⟨hhead.trans ⟨'\n' :: truncationMarker, rfl⟩, ?_, ?_, ?_, ?_, ?_, ?_⟩
      · simp only [List.length_append, List.length_cons]
        omega
      · intro _
        simp only [List.length_append, List.length_cons]
        omega
      · intro hfit
        exfalso
        omega
      · intro _ hle
        exfalso
        omega
      · intro _ _
        exact ⟨joinLines (diffHeader input) ++ ['\n'], by simp⟩
      · intro _ _
        exact Or.inl ⟨t2, rfl⟩
    · -- truncated body + marker
      refine ⟨hhead.trans ⟨'\n' :: truncatedBodyCut (diffHeader input)
          (diffBodyLines input) input.maxDiffChars ++ '\n' :: truncationMarker,
          by simp⟩,
        ?_, ?_, ?_, ?_, ?_, ?_⟩
      · simp only [List.length_append, List.length_cons]
        omega
      · intro _
        simp only [List.length_append, List.length_cons]
        omega
      · intro hfit
        exfalso
        omega
      · intro _ hle
        exfalso
        omega
      · intro _ _
        refine ⟨joinLines (diffHeader input) ++ '\n' ::
          (truncatedBodyCut (diffHeader input) (diffBodyLines input)
            input.maxDiffChars ++ ['\n']), ?_⟩
        simp
      · intro _ _
        by_cases hln : jsLastIndexOf (truncatedBodySlice (diffHeader input)
            (diffBodyLines input) input.maxDiffChars) '\n' > 0
        · have hmem : '\n' ∈ truncatedBodySlice (diffHeader input)
              (diffBodyLines input) input.maxDiffChars := by
            by_contra hnm
            unfold jsLastIndexOf at hln
            rw [if_neg hnm] at hln
            omega
          obtain ⟨pre, post, hsl, hpost, hj⟩ := jsLastIndexOf_split _ '\n' hmem
          have hcuteq : truncatedBodyCut (diffHeader input) (diffBodyLines input)
              input.maxDiffChars = pre := by
            unfold truncatedBodyCut
            rw [if_pos hln, hj, Int.toNat_natCast, hsl]
            exact List.take_left pre ('\n' :: post)
          refine Or.inr (Or.inl ⟨post, ?_, hpost, ?_, rfl⟩)
          · rw [hcuteq]
            exact hsl
          · rw [hcuteq]
            have hplen : 0 < pre.length := by
              rw [hj] at hln
              exact_mod_cast hln
            exact List.ne_nil_of_length_pos hplen
        · have hcuteq : truncatedBodyCut (diffHeader input) (diffBodyLines input)
              input.maxDiffChars = truncatedBodySlice (diffHeader input)
              (diffBodyLines input) input.maxDiffChars := by
            unfold truncatedBodyCut
            rw [if_neg hln]
          refine Or.inr (Or.inr ⟨?_, hcuteq, ?_⟩)
          · intro hmem1
            have hmem : '\n' ∈ truncatedBodySlice (diffHeader input)
                (diffBodyLines input) input.maxDiffChars :=
              List.mem_of_mem_drop hmem1
            obtain ⟨pre, post, hsl, hpost, hj⟩ := jsLastIndexOf_split _ '\n' hmem
            have hlen0 : pre.length = 0 := by
              have hle : (pre.length : Int) ≤ 0 := by
                rw [← hj]
                omega
              omega
            have hpre : pre = [] := List.eq_nil_of_length_eq_zero hlen0
            have hdrop : (truncatedBodySlice (diffHeader input) (diffBodyLines input)
                input.maxDiffChars).drop 1 = post := by
              rw [hsl, hpre]
              rfl
            rw [hdrop] at hmem1
            exact hpost hmem1
          · rw [hcuteq]

set_option maxRecDepth 10000 in
/-- C5 witness: on a small change that fits the default budget the output is
the full patch, which begins with its `Index: f` header and respects the
budget. -/
theorem formatRecentChangeDiff_output_shape_witness :
    ("Index: ".data ++ "f".data) <+:
      joinLines (diffHeader ⟨"f".data, "a".data, 0, 0, 1, "b".data, 2, 20000⟩ ++
        diffBodyLines ⟨"f".data, "a".data, 0, 0, 1, "b".data, 2, 20000⟩) ∧
    (joinLines (diffHeader ⟨"f".data, "a".data, 0, 0, 1, "b".data, 2, 20000⟩ ++
        diffBodyLines ⟨"f".data, "a".data, 0, 0, 1, "b".data, 2, 20000⟩)).length ≤
      max 20000
        (joinLines (diffHeader ⟨"f".data, "a".data, 0, 0, 1, "b".data, 2, 20000⟩)).length := by
  have h := formatRecentChangeDiff_output_shape
    ⟨"f".data, "a".data, 0, 0, 1, "b".data, 2, 20000⟩
    (joinLines (diffHeader ⟨"f".data, "a".data, 0, 0, 1, "b".data, 2, 20000⟩ ++
      diffBodyLines ⟨"f".data, "a".data, 0, 0, 1, "b".data, 2, 20000⟩))
    (by decide)
  exact ⟨h.1, h.2.1⟩

end ClaimC5

namespace TextUtil

/-- `AUTOCOMPLETE_MAX_FILE_SIZE` from the source. -/
def AUTOCOMPLETE_MAX_FILE_SIZE : Nat := 10000000

/-- `AUTOCOMPLETE_MAX_LINES` from the source. -/
def AUTOCOMPLETE_MAX_LINES : Nat := 50000

/-- `AUTOCOMPLETE_AVG_LINE_LENGTH_THRESHOLD` from the source. -/
def AUTOCOMPLETE_AVG_LINE_LENGTH_THRESHOLD : Nat := 240

/-- `isFileTooLarge` from the source.  The JS float division
`text.length / (lines.length + 1)` is embedded as exact rational division:
on the reachable branch `text.length ≤ 10^7` and `lines.length + 1 ≤ 50001`,
so whenever the exact quotient differs from 240 it differs by at least
`1/(lines.length + 1) > 2^-16`, far beyond double rounding error, and the
float comparison agrees with the exact one. -/
def isFileTooLarge (text : Str) : Bool :=
  if text.length > AUTOCOMPLETE_MAX_FILE_SIZE then true
  else if (text.splitOn '\n').length > AUTOCOMPLETE_MAX_LINES then true
  else if ((text.length : ℚ) / (((text.splitOn '\n').length : ℚ) + 1) >
      (AUTOCOMPLETE_AVG_LINE_LENGTH_THRESHOLD : ℚ)) then true
  else false

end TextUtil

section ClaimC10

open TextUtil

/-- C10: `isFileTooLarge text` is `true` exactly when the text is longer than
10,000,000 characters, splits on newline into more than 50,000 lines, or its
length exceeds 240 times the number of lines *plus one* — the divisor of the
average-line-length check is `lines + 1`, one more line than the text
contains. -/
theorem isFileTooLarge_iff (text : Str) :
    isFileTooLarge text = true ↔
      (10000000 < text.length ∨ 50000 < (text.splitOn '\n').length ∨
        240 * ((text.splitOn '\n').length + 1) < text.length) := by
  have hpos : (0 : ℚ) < ((text.splitOn '\n').length : ℚ) + 1 := by positivity
  have hdiv : ((text.length : ℚ) / (((text.splitOn '\n').length : ℚ) + 1) >
      (240 : ℚ)) ↔ 240 * ((text.splitOn '\n').length + 1) < text.length := by
    rw [gt_iff_lt, lt_div_iff₀ hpos]
    constructor
    · intro hlt
      exact_mod_cast hlt
    · intro hlt
      exact_mod_cast hlt
  unfold isFileTooLarge AUTOCOMPLETE_MAX_FILE_SIZE AUTOCOMPLETE_MAX_LINES
    AUTOCOMPLETE_AVG_LINE_LENGTH_THRESHOLD
  split_ifs with h1 h2 h3
  · simp only [true_iff]
    exact Or.inl h1
  · simp only [true_iff]
    exact Or.inr (Or.inl h2)
  · simp only [true_iff]
    exact Or.inr (Or.inr (hdiv.mp h3))
  · simp only [Bool.false_eq_true, false_iff, not_or]
    exact ⟨h1, h2, fun hc => h3 (hdiv.mpr hc)⟩

end ClaimC10
